import Mathlib

/-!
Shallow embedding of the simple-trello board API (Next.js route handlers over
Prisma) and proofs of the specification's claims about it.

The embedded code:
* `src/app/api/projects/[projectId]/tasks/route.ts` — POST (create task with
  appended order), GET (board fetch, sorted), PUT (bulk layout update),
  PATCH (partial task update), DELETE (task deletion);
* the client's `groupByStatus` (board page component);
* `lib/invite.ts` `generateInviteCode` and the project-creation route's
  bounded retry loop.

The relational store is a `DB` record of row lists.  Each route handler is a
pure function from the database and the (already JSON-decoded) request to a
result together with the database after the call; an error result always
returns the database unchanged, matching the fact that the handlers perform
no write before their validation steps succeed, and that the single
multi-update write (`$transaction` in PUT) is atomic.  Randomness (crypto
bytes), fresh cuids and clock readings are passed in as explicit arguments.
-/

namespace STrello

/-- Task status enum (`TaskStatus` in the Prisma schema). -/
inductive Status
  | TODO
  | DOING
  | DONE
deriving DecidableEq

/-- Project-member role enum (`ProjectRole` in the Prisma schema). -/
inductive Role
  | OWNER
  | MEMBER
deriving DecidableEq

/-- A `Task` row.  `dueDate`/`createdAt` timestamps are modelled as epoch
milliseconds; `order` is the SQL `INTEGER` column. -/
structure Task where
  id : String
  projectId : String
  title : String
  description : Option String
  status : Status
  order : Int
  dueDate : Option Nat
  assigneeId : Option String
  creatorId : String
  createdAt : Nat
deriving DecidableEq

/-- A `Project` row (fields the routes read). -/
structure ProjectRow where
  id : String
  name : String
  inviteCode : String
deriving DecidableEq

/-- A `Member` row (fields the routes read). -/
structure MemberRow where
  id : String
  displayName : String
deriving DecidableEq

/-- A `ProjectMember` join row. -/
structure ProjectMemberRow where
  projectId : String
  memberId : String
  role : Role
deriving DecidableEq

/-- The relational store. -/
structure DB where
  projects : List ProjectRow
  members : List MemberRow
  projectMembers : List ProjectMemberRow
  tasks : List Task
deriving DecidableEq

/-- Error codes returned by the embedded routes. -/
inductive ApiError
  | MISSING_MEMBER_ID
  | FORBIDDEN
  | INVALID_BODY
  | PROJECT_NOT_FOUND
  | TASK_NOT_FOUND
  | ASSIGNEE_NOT_IN_PROJECT
  | TASKS_NOT_IN_PROJECT
  | INVITE_CODE_GENERATION_FAILED
deriving DecidableEq

instance {ε α : Type} [DecidableEq ε] [DecidableEq α] : DecidableEq (Except ε α)
  | .error e, .error f =>
    if h : e = f then .isTrue (by rw [h]) else .isFalse (fun c => by cases c; exact h rfl)
  | .error _, .ok _ => .isFalse (fun c => by cases c)
  | .ok _, .error _ => .isFalse (fun c => by cases c)
  | .ok a, .ok b =>
    if h : a = b then .isTrue (by rw [h]) else .isFalse (fun c => by cases c; exact h rfl)

/-- Whitespace trimming (`String.prototype.trim` / zod `.trim()`), embedded
over the character list of the string. -/
def strTrim (s : String) : String :=
  String.mk (((s.toList.dropWhile Char.isWhitespace).reverse.dropWhile Char.isWhitespace).reverse)

/-- `getMemberIdOrThrow`: reads the `x-member-id` header, trims it, and fails
when it is absent or blank. -/
def parseMemberId (header : Option String) : Option String :=
  match header with
  | none => none
  | some s => if strTrim s = "" then none else some (strTrim s)

/-- `prisma.projectMember.findUnique` on the composite key, as used by
`assertMemberInProject` and the assignee checks. -/
def isMember (db : DB) (projectId memberId : String) : Bool :=
  db.projectMembers.any (fun pm => decide (pm.projectId = projectId ∧ pm.memberId = memberId))

/-- Sort key position of a status under the Postgres enum ordering used by
`orderBy { status : asc }` (enum definition order TODO, DOING, DONE). -/
def statusIdx : Status → Nat
  | .TODO => 0
  | .DOING => 1
  | .DONE => 2

/-- The GET route's `orderBy [{status asc}, {order asc}, {createdAt asc}]`
comparison, as a total preorder on tasks. -/
def taskLe (a b : Task) : Prop :=
  statusIdx a.status < statusIdx b.status ∨
    (statusIdx a.status = statusIdx b.status ∧
      (a.order < b.order ∨ (a.order = b.order ∧ a.createdAt ≤ b.createdAt)))

instance : DecidableRel taskLe := fun a b => by
  unfold taskLe; infer_instance

instance : IsTotal Task taskLe := ⟨by
  intro a b; unfold taskLe; omega⟩

instance : IsTrans Task taskLe := ⟨by
  intro a b c hab hbc; unfold taskLe at hab hbc ⊢; omega⟩

/-- The client `groupByStatus` comparator `(a, b) => a.order - b.order`, as a
total preorder.  JavaScript `Array.prototype.sort` is a stable sort, which
the stable `insertionSort` mirrors. -/
def orderLe (a b : Task) : Prop :=
  a.order ≤ b.order

instance : DecidableRel orderLe := fun a b => by
  unfold orderLe; infer_instance

instance : IsTotal Task orderLe := ⟨by
  intro a b; unfold orderLe; omega⟩

instance : IsTrans Task orderLe := ⟨by
  intro a b c hab hbc; unfold orderLe at hab hbc ⊢; omega⟩

/-- Within one column: order ascending, ties broken by creation time
ascending (the order the composed pipeline is claimed to produce). -/
def colLe (a b : Task) : Prop :=
  a.order < b.order ∨ (a.order = b.order ∧ a.createdAt ≤ b.createdAt)

/-- The GET route's task query: the project's tasks sorted by
(status, order, createdAt) ascending. -/
def boardTasks (db : DB) (projectId : String) : List Task :=
  List.insertionSort taskLe (db.tasks.filter (fun t => decide (t.projectId = projectId)))

/-- The client's `groupByStatus`: push tasks into per-status buckets in input
order, then stably sort each bucket by `order`. -/
def groupByStatus (tasks : List Task) (s : Status) : List Task :=
  List.insertionSort orderLe (tasks.filter (fun t => decide (t.status = s)))

/-- The spec's Group-and-sort operation: the server-side sorted fetch composed
with the client's grouping. -/
def groupAndSort (db : DB) (projectId : String) (s : Status) : List Task :=
  groupByStatus (boardTasks db projectId) s

/-- Decoded body of POST (CreateTaskSchema).  zod `.trim()` transforms are
applied at storage time via `strTrim`; `null` and absent fields both decode
to `none` (POST collapses them with `?? null` / `?? "TODO"`). -/
structure CreateTaskBody where
  title : String
  description : Option String
  status : Option Status
  dueDate : Option Nat
  assigneeId : Option String
deriving DecidableEq

/-- CreateTaskSchema validation: trimmed title 1..120 chars, trimmed
description at most 2000 chars, assigneeId nonempty when present. -/
def validCreateTaskBody (b : CreateTaskBody) : Bool :=
  decide (1 ≤ (strTrim b.title).length) && decide ((strTrim b.title).length ≤ 120) &&
    (match b.description with
      | none => true
      | some d => decide ((strTrim d).length ≤ 2000)) &&
    (match b.assigneeId with
      | none => true
      | some a => decide (1 ≤ a.length))

/-- SQL `MAX` over a list of integers (`none` on the empty set), as returned
by `prisma.task.aggregate { _max : { order } }`. -/
def maxOrderOf : List Int → Option Int
  | [] => none
  | o :: os =>
    match maxOrderOf os with
    | none => some o
    | some m => some (max o m)

/-- The rows of one (projectId, status) partition, in store order. -/
def partitionTasks (tasks : List Task) (projectId : String) (s : Status) : List Task :=
  tasks.filter (fun t => decide (t.projectId = projectId ∧ t.status = s))

/-- First store round trip of POST: the aggregate query computing the
maximum `order` of the target partition. -/
def appendReadMax (db : DB) (projectId : String) (s : Status) : Option Int :=
  maxOrderOf ((partitionTasks db.tasks projectId s).map Task.order)

/-- Second store round trip of POST: `prisma.task.create` with
`order = (readMax ?? -1) + 1`, using the max value read earlier.  The fresh
cuid and the clock reading are passed in as `newId` and `now`. -/
def appendWrite (db : DB) (projectId : String) (s : Status) (b : CreateTaskBody)
    (memberId newId : String) (now : Nat) (readMax : Option Int) : Task × DB :=
  let t : Task :=
    { id := newId
      projectId := projectId
      title := (strTrim b.title)
      description := b.description.map strTrim
      status := s
      order := readMax.getD (-1) + 1
      dueDate := b.dueDate
      assigneeId := b.assigneeId
      creatorId := memberId
      createdAt := now }
  (t, { db with tasks := db.tasks ++ [t] })

/-- POST `/api/projects/[projectId]/tasks`: create a task appended to the end
of its status column.  Sequential (uninterleaved) execution: the aggregate
read and the create write happen back to back. -/
def postTask (db : DB) (projectId : String) (header : Option String)
    (body : Option CreateTaskBody) (newId : String) (now : Nat) :
    Except ApiError Task × DB :=
  match parseMemberId header with
  | none => (.error .MISSING_MEMBER_ID, db)
  | some memberId =>
    if isMember db projectId memberId then
      match body with
      | none => (.error .INVALID_BODY, db)
      | some b =>
        if validCreateTaskBody b then
          let ok :=
            let s := b.status.getD Status.TODO
            let r := appendWrite db projectId s b memberId newId now (appendReadMax db projectId s)
            (Except.ok r.1, r.2)
          match b.assigneeId with
          | some a =>
            if isMember db projectId a then ok
            else (.error .ASSIGNEE_NOT_IN_PROJECT, db)
          | none => ok
        else (.error .INVALID_BODY, db)
    else (.error .FORBIDDEN, db)

/-- One entry of the PUT body (BoardUpdateSchema element). -/
structure BoardEntry where
  id : String
  status : Status
  order : Int
deriving DecidableEq

/-- BoardUpdateSchema element validation: nonempty id, integer order in
[0, 1000000]. -/
def validBoardEntry (e : BoardEntry) : Bool :=
  decide (1 ≤ e.id.length) && decide (0 ≤ e.order) && decide (e.order ≤ 1000000)

/-- BoardUpdateSchema validation: every entry valid, at most 2000 entries. -/
def validBoardBody (entries : List BoardEntry) : Bool :=
  entries.all validBoardEntry && decide (entries.length ≤ 2000)

/-- One `prisma.task.update` of the PUT transaction: set (status, order) of
the row whose primary key equals the entry's id. -/
def updateTask (tasks : List Task) (e : BoardEntry) : List Task :=
  tasks.map (fun t => if t.id = e.id then { t with status := e.status, order := e.order } else t)

/-- The `$transaction` of PUT: the updates applied in batch order.  The batch
is atomic; it only runs after validation guaranteed every id exists, so every
individual update succeeds. -/
def applyEntries (tasks : List Task) (entries : List BoardEntry) : List Task :=
  entries.foldl updateTask tasks

/-- PUT `/api/projects/[projectId]/board`: the Apply-layout operation. -/
def putBoard (db : DB) (projectId : String) (header : Option String)
    (body : Option (List BoardEntry)) : Except ApiError Unit × DB :=
  match parseMemberId header with
  | none => (.error .MISSING_MEMBER_ID, db)
  | some memberId =>
    if isMember db projectId memberId then
      match body with
      | none => (.error .INVALID_BODY, db)
      | some entries =>
        if validBoardBody entries then
          let ids := entries.map BoardEntry.id
          let existing := db.tasks.filter (fun t => ids.contains t.id)
          if decide (existing.length ≠ ids.length) ||
              existing.any (fun t => decide (t.projectId ≠ projectId)) then
            (.error .TASKS_NOT_IN_PROJECT, db)
          else
            (.ok (), { db with tasks := applyEntries db.tasks entries })
        else (.error .INVALID_BODY, db)
    else (.error .FORBIDDEN, db)

/-- Decoded body of PATCH (PatchTaskSchema).  zod distinguishes an absent
field (outer `none`) from an explicit `null` (inner `none`), hence the nested
options for the nullable fields. -/
structure PatchBody where
  title : Option String
  description : Option (Option String)
  status : Option Status
  order : Option Int
  dueDate : Option (Option Nat)
  assigneeId : Option (Option String)
deriving DecidableEq

/-- PatchTaskSchema validation: field constraints plus the `.refine` that at
least one key is present. -/
def validPatchBody (b : PatchBody) : Bool :=
  (match b.title with
    | none => true
    | some s => decide (1 ≤ (strTrim s).length) && decide ((strTrim s).length ≤ 120)) &&
  (match b.description with
    | none => true
    | some none => true
    | some (some d) => decide ((strTrim d).length ≤ 2000)) &&
  (match b.order with
    | none => true
    | some o => decide (0 ≤ o) && decide (o ≤ 1000000)) &&
  (match b.assigneeId with
    | none => true
    | some none => true
    | some (some a) => decide (1 ≤ a.length)) &&
  !(b.title.isNone && b.description.isNone && b.status.isNone &&
    b.order.isNone && b.dueDate.isNone && b.assigneeId.isNone)

/-- The `data` record built by PATCH, applied to a row: present fields
overwrite, absent fields are left alone. -/
def applyPatch (t : Task) (b : PatchBody) : Task :=
  { t with
    title := match b.title with | some s => strTrim s | none => t.title
    description := match b.description with | some d => d.map strTrim | none => t.description
    status := b.status.getD t.status
    order := b.order.getD t.order
    dueDate := match b.dueDate with | some d => d | none => t.dueDate
    assigneeId := match b.assigneeId with | some a => a | none => t.assigneeId }

/-- PATCH `/api/tasks/[taskId]`: the Patch-task operation. -/
def patchTask (db : DB) (taskId : String) (header : Option String)
    (body : Option PatchBody) : Except ApiError Task × DB :=
  match parseMemberId header with
  | none => (.error .MISSING_MEMBER_ID, db)
  | some memberId =>
    match body with
    | none => (.error .INVALID_BODY, db)
    | some b =>
      if validPatchBody b then
        match db.tasks.find? (fun t => decide (t.id = taskId)) with
        | none => (.error .TASK_NOT_FOUND, db)
        | some existing =>
          if isMember db existing.projectId memberId then
            let ok :=
              (Except.ok (applyPatch existing b),
                { db with tasks :=
                    db.tasks.map (fun t => if t.id = taskId then applyPatch t b else t) })
            match b.assigneeId with
            | some (some a) =>
              if isMember db existing.projectId a then ok
              else (.error .ASSIGNEE_NOT_IN_PROJECT, db)
            | _ => ok
          else (.error .FORBIDDEN, db)
      else (.error .INVALID_BODY, db)

/-- DELETE `/api/tasks/[taskId]`: the Delete-task operation.  When the id
matches no row the handler returns `ok` before any membership check. -/
def deleteTask (db : DB) (taskId : String) (header : Option String) :
    Except ApiError Unit × DB :=
  match parseMemberId header with
  | none => (.error .MISSING_MEMBER_ID, db)
  | some memberId =>
    match db.tasks.find? (fun t => decide (t.id = taskId)) with
    | none => (.ok (), db)
    | some existing =>
      if isMember db existing.projectId memberId then
        (.ok (), { db with tasks := db.tasks.filter (fun t => decide (t.id ≠ taskId)) })
      else (.error .FORBIDDEN, db)

/-- The invite-code alphabet of `lib/invite.ts`: 32 characters, with the
visually ambiguous I, O, 0, 1 left out. -/
def inviteAlphabet : List Char :=
  "ABCDEFGHJKLMNPQRSTUVWXYZ23456789".toList

/-- `generateInviteCode`: map each random byte to
`alphabet[byte % alphabet.length]`.  The caller supplies `length` bytes from
`randomBytes`, so `bytes` has the requested length (8 by default). -/
def generateInviteCode (bytes : List Nat) : String :=
  String.mk (bytes.map (fun b => inviteAlphabet.getD (b % inviteAlphabet.length) 'A'))

/-- Decoded body of the project-creation POST (CreateProjectSchema). -/
structure CreateProjectBody where
  projectName : String
  displayName : String
deriving DecidableEq

/-- CreateProjectSchema validation: trimmed name lengths 1..80 and 1..40. -/
def validCreateProjectBody (b : CreateProjectBody) : Bool :=
  decide (1 ≤ (strTrim b.projectName).length) && decide ((strTrim b.projectName).length ≤ 80) &&
    decide (1 ≤ (strTrim b.displayName).length) && decide ((strTrim b.displayName).length ≤ 40)

/-- The retry loop body of project creation: attempt `prisma.project.create`
with each candidate code in turn; a create whose code collides with an
existing project's unique `inviteCode` throws and the loop retries with the
next candidate. -/
def tryInsertProject (db : DB) (name newProjectId memberId : String) :
    List String → Option (ProjectRow × DB)
  | [] => none
  | code :: rest =>
    if db.projects.any (fun p => decide (p.inviteCode = code)) then
      tryInsertProject db name newProjectId memberId rest
    else
      let p : ProjectRow := { id := newProjectId, name := name, inviteCode := code }
      some (p,
        { db with
          projects := db.projects ++ [p]
          projectMembers := db.projectMembers ++
            [{ projectId := newProjectId, memberId := memberId, role := Role.OWNER }] })

/-- POST `/api/projects`: create a member, then try up to 8 invite codes
(generated from the supplied random-byte stream); when all 8 attempts collide
the route answers 500 `INVITE_CODE_GENERATION_FAILED`. -/
def createProject (db : DB) (body : Option CreateProjectBody)
    (newMemberId newProjectId : String) (byteStream : List (List Nat)) :
    Except ApiError (ProjectRow × MemberRow) × DB :=
  match body with
  | none => (.error .INVALID_BODY, db)
  | some b =>
    if validCreateProjectBody b then
      match tryInsertProject
          { db with members := db.members ++
              [{ id := newMemberId, displayName := strTrim b.displayName }] }
          (strTrim b.projectName) newProjectId newMemberId
          ((byteStream.take 8).map generateInviteCode) with
      | some (p, db2) =>
        (.ok (p, { id := newMemberId, displayName := strTrim b.displayName }), db2)
      | none =>
        (.error .INVITE_CODE_GENERATION_FAILED,
          { db with members := db.members ++
              [{ id := newMemberId, displayName := strTrim b.displayName }] })
    else (.error .INVALID_BODY, db)

/-- Two POST task-creation requests racing on the same partition, interleaved
read₁, read₂, write₁, write₂.  POST runs its aggregate read and its create
write as two separate store queries with no enclosing transaction, so this
interleaving is allowed by the code. -/
def interleavedAppendPair (db : DB) (projectId : String) (s : Status)
    (b1 b2 : CreateTaskBody) (m1 m2 id1 id2 : String) (t1 t2 : Nat) : DB :=
  let r1 := appendReadMax db projectId s
  let r2 := appendReadMax db projectId s
  let w1 := appendWrite db projectId s b1 m1 id1 t1 r1
  let w2 := appendWrite w1.2 projectId s b2 m2 id2 t2 r2
  w2.2

/-- Effect of a single PUT entry on a single row (`updateTask` viewed one row
at a time). -/
def stepOne (t : Task) (e : BoardEntry) : Task :=
  if t.id = e.id then { t with status := e.status, order := e.order } else t

/-- Effect of a whole PUT batch on a single row. -/
def stepAll (t : Task) (entries : List BoardEntry) : Task :=
  entries.foldl stepOne t

/-- Concrete TODO task fixture used by witnesses and counterexamples. -/
def sampleA : Task :=
  { id := "a", projectId := "p", title := "A", description := none, status := .TODO,
    order := 0, dueDate := none, assigneeId := none, creatorId := "m", createdAt := 1 }

/-- Second concrete TODO task fixture. -/
def sampleB : Task :=
  { id := "b", projectId := "p", title := "B", description := none, status := .TODO,
    order := 1, dueDate := none, assigneeId := none, creatorId := "m", createdAt := 2 }

/-- Concrete store fixture: one project, one member, two TODO tasks. -/
def sampleDB : DB :=
  { projects := [{ id := "p", name := "P", inviteCode := "ABCDEFGH" }]
    members := [{ id := "m", displayName := "M" }]
    projectMembers := [{ projectId := "p", memberId := "m", role := .OWNER }]
    tasks := [sampleA, sampleB] }

/-- Concrete store fixture with no tasks at all. -/
def emptyBoardDB : DB :=
  { sampleDB with tasks := [] }

/-- Concrete store fixture whose only project holds the invite code the
all-zero byte stream generates. -/
def collideDB : DB :=
  { sampleDB with projects := [{ id := "p", name := "P", inviteCode := "AAAAAAAA" }] }

/-- The SQL MAX result is `none` exactly on the empty partition. -/
theorem maxOrderOf_eq_none {l : List Int} : maxOrderOf l = none ↔ l = [] := by
  cases l with
  | nil => simp [maxOrderOf]
  | cons o os =>
    simp only [maxOrderOf]
    cases h : maxOrderOf os <;> simp

/-- The SQL MAX result is attained by some element. -/
theorem maxOrderOf_mem {l : List Int} {m : Int} (h : maxOrderOf l = some m) : m ∈ l := by
  induction l generalizing m with
  | nil => simp [maxOrderOf] at h
  | cons o os ih =>
    simp only [maxOrderOf] at h
    cases hm : maxOrderOf os with
    | none => rw [hm] at h; cases h; simp
    | some k =>
      rw [hm] at h
      cases h
      rcases max_choice o k with hc | hc <;> rw [hc]
      · simp
      · simp [ih hm]

/-- The SQL MAX result bounds every element. -/
theorem le_maxOrderOf {l : List Int} {m a : Int} (ha : a ∈ l) (h : maxOrderOf l = some m) :
    a ≤ m := by
  induction l generalizing m with
  | nil => simp at ha
  | cons o os ih =>
    simp only [maxOrderOf] at h
    cases hm : maxOrderOf os with
    | none =>
      rw [hm] at h
      cases h
      rcases List.mem_cons.mp ha with rfl | hmem
      · exact le_refl _
      · rw [maxOrderOf_eq_none.mp hm] at hmem; simp at hmem
    | some k =>
      rw [hm] at h
      cases h
      rcases List.mem_cons.mp ha with rfl | hmem
      · exact le_max_left _ _
      · exact le_trans (ih hmem hm) (le_max_right _ _)

/-- A batch entry never changes a row's primary key. -/
theorem stepOne_id (t : Task) (e : BoardEntry) : (stepOne t e).id = t.id := by
  unfold stepOne; split <;> rfl

/-- A batch never changes a row's primary key. -/
theorem stepAll_id (t : Task) (es : List BoardEntry) : (stepAll t es).id = t.id := by
  induction es generalizing t with
  | nil => rfl
  | cons e es ih =>
    show (stepAll (stepOne t e) es).id = t.id
    rw [ih (stepOne t e), stepOne_id]

/-- A row listed by no entry of the batch is left alone. -/
theorem stepAll_untouched {t : Task} {es : List BoardEntry} (h : ∀ e ∈ es, t.id ≠ e.id) :
    stepAll t es = t := by
  induction es with
  | nil => rfl
  | cons e es ih =>
    have h1 : stepOne t e = t := by unfold stepOne; rw [if_neg (h e (by simp))]
    show stepAll (stepOne t e) es = t
    rw [h1]
    exact ih (fun e' he' => h e' (by simp [he']))

/-- When the batch ids are pairwise distinct, the row matching an entry ends
with exactly that entry's status and order. -/
theorem stepAll_applied {t : Task} {es : List BoardEntry} {e : BoardEntry}
    (hnd : (es.map BoardEntry.id).Nodup) (he : e ∈ es) (hid : t.id = e.id) :
    (stepAll t es).status = e.status ∧ (stepAll t es).order = e.order := by
  induction es generalizing t with
  | nil => simp at he
  | cons e0 es ih =>
    have hnd0 : e0.id ∉ es.map BoardEntry.id ∧ (es.map BoardEntry.id).Nodup := by
      rw [List.map_cons] at hnd; exact List.nodup_cons.mp hnd
    rcases List.mem_cons.mp he with rfl | hmem
    · have h1 : stepOne t e = { t with status := e.status, order := e.order } := by
        unfold stepOne; rw [if_pos hid]
      have hrest : ∀ e' ∈ es, ({ t with status := e.status, order := e.order } : Task).id ≠ e'.id := by
        intro e' he' hq
        exact hnd0.1 (by simpa [← hq, ← hid] using List.mem_map_of_mem BoardEntry.id he')
      show (stepAll (stepOne t e) es).status = e.status ∧ (stepAll (stepOne t e) es).order = e.order
      rw [h1, stepAll_untouched hrest]
      exact ⟨rfl, rfl⟩
    · have hne : t.id ≠ e0.id := by
        intro hq
        exact hnd0.1 (by simpa [← hq, ← hid] using List.mem_map_of_mem BoardEntry.id hmem)
      have h1 : stepOne t e0 = t := by unfold stepOne; rw [if_neg hne]
      show (stepAll (stepOne t e0) es).status = e.status ∧ (stepAll (stepOne t e0) es).order = e.order
      rw [h1]
      exact ih hnd0.2 hmem hid

/-- One `updateTask` is the map of the row-level `stepOne`. -/
theorem updateTask_eq_map (ts : List Task) (e : BoardEntry) :
    updateTask ts e = ts.map (fun t => stepOne t e) := rfl

/-- The batch transaction acts row by row. -/
theorem applyEntries_eq_map (ts : List Task) (es : List BoardEntry) :
    applyEntries ts es = ts.map (fun t => stepAll t es) := by
  induction es generalizing ts with
  | nil => simp [applyEntries, stepAll]
  | cons e es ih =>
    show applyEntries (updateTask ts e) es = _
    rw [ih, updateTask_eq_map, List.map_map]
    rfl

/-- The GET query result is sorted by its `orderBy` key. -/
theorem sorted_boardTasks (db : DB) (pid : String) : (boardTasks db pid).Sorted taskLe :=
  List.sorted_insertionSort taskLe _

/-- Members of a status bucket carry that status. -/
theorem mem_filter_status {l : List Task} {s : Status} {t : Task}
    (h : t ∈ l.filter (fun t => decide (t.status = s))) : t.status = s := by
  simpa using List.of_mem_filter h

/-- On a list already sorted the server's way, the client's stable per-status
sort is the identity, and each bucket is sorted by (order, createdAt). -/
theorem groupByStatus_of_sorted {l : List Task} {s : Status} (h : l.Sorted taskLe) :
    groupByStatus l s = l.filter (fun t => decide (t.status = s)) ∧
      (l.filter (fun t => decide (t.status = s))).Sorted colLe := by
  have hf : (l.filter (fun t => decide (t.status = s))).Sorted taskLe := h.filter _
  have hcol : (l.filter (fun t => decide (t.status = s))).Sorted colLe := by
    refine List.Pairwise.imp_of_mem ?_ hf
    intro a b ha hb hab
    have hsa := mem_filter_status ha
    have hsb := mem_filter_status hb
    unfold taskLe at hab
    rw [hsa, hsb] at hab
    unfold colLe
    omega
  have hord : (l.filter (fun t => decide (t.status = s))).Sorted orderLe := by
    refine hcol.imp ?_
    intro a b hab
    unfold colLe at hab
    unfold orderLe
    omega
  exact ⟨List.Sorted.insertionSort_eq hord, hcol⟩

/-- Group-and-sort is the status filter of the server-sorted fetch. -/
theorem groupAndSort_eq_filter (db : DB) (pid : String) (s : Status) :
    groupAndSort db pid s = (boardTasks db pid).filter (fun t => decide (t.status = s)) :=
  (groupByStatus_of_sorted (sorted_boardTasks db pid)).1

/-- Each Group-and-sort column is sorted by order with createdAt tie-break. -/
theorem groupAndSort_sorted (db : DB) (pid : String) (s : Status) :
    (groupAndSort db pid s).Sorted colLe := by
  rw [groupAndSort_eq_filter]
  exact (groupByStatus_of_sorted (sorted_boardTasks db pid)).2

/-- Each Group-and-sort column holds exactly the tasks of its partition. -/
theorem groupAndSort_perm (db : DB) (pid : String) (s : Status) :
    (groupAndSort db pid s).Perm (partitionTasks db.tasks pid s) := by
  rw [groupAndSort_eq_filter]
  have h1 : (boardTasks db pid).Perm (db.tasks.filter (fun t => decide (t.projectId = pid))) :=
    List.perm_insertionSort taskLe _
  have h2 := h1.filter (fun t => decide (t.status = s))
  refine h2.trans ?_
  rw [List.filter_filter]
  unfold partitionTasks
  have : (fun t : Task => decide (t.status = s) && decide (t.projectId = pid)) =
      (fun t : Task => decide (t.projectId = pid ∧ t.status = s)) := by
    funext t
    by_cases h1 : t.projectId = pid <;> by_cases h2 : t.status = s <;> simp [h1, h2]
  rw [this]

/-- In a column sorted by `colLe`, an element strictly above every other
element's order sits at the end. -/
theorem getLast_of_sorted_max {l : List Task} {x : Task} (hs : l.Sorted colLe)
    (hx : x ∈ l) (hmax : ∀ y ∈ l, y = x ∨ y.order < x.order) : l.getLast? = some x := by
  induction l with
  | nil => simp at hx
  | cons a l ih =>
    cases l with
    | nil =>
      rcases List.mem_cons.mp hx with rfl | h2
      · rfl
      · simp at h2
    | cons b l2 =>
      have hs' : (b :: l2).Sorted colLe := hs.of_cons
      have hxrest : x ∈ b :: l2 := by
        rcases List.mem_cons.mp hx with rfl | h2
        · rcases hmax b (by simp) with hb | hblt
          · rw [← hb]; simp
          · have hcb : colLe x b := List.rel_of_sorted_cons hs b (by simp)
            unfold colLe at hcb
            omega
        · exact h2
      have hres := ih hs' hxrest (fun y hy => hmax y (by simp [hy]))
      simpa [List.getLast?_cons_cons] using hres

/-- The PUT validation (`existing.length === ids.length` and every existing
row in the target project) holds exactly when the batch lists pairwise
distinct ids and every listed id names a task of the target project —
provided task primary keys are unique. -/
theorem putBoard_check_iff {db : DB} {pid : String} {es : List BoardEntry}
    (hnd : (db.tasks.map Task.id).Nodup) :
    ((db.tasks.filter (fun t => (es.map BoardEntry.id).contains t.id)).length =
        (es.map BoardEntry.id).length ∧
      ∀ t ∈ db.tasks.filter (fun t => (es.map BoardEntry.id).contains t.id),
        t.projectId = pid) ↔
    ((es.map BoardEntry.id).Nodup ∧
      ∀ e ∈ es, ∃ t ∈ db.tasks, t.id = e.id ∧ t.projectId = pid) := by
  set ids := es.map BoardEntry.id with hids
  set existing := db.tasks.filter (fun t => ids.contains t.id) with hex
  have hmemex : ∀ t : Task, t ∈ existing ↔ t ∈ db.tasks ∧ t.id ∈ ids := by
    intro t
    constructor
    · intro h
      refine ⟨List.mem_of_mem_filter h, ?_⟩
      have := List.of_mem_filter h
      simpa [List.elem_iff] using this
    · intro ⟨h1, h2⟩
      refine List.mem_filter.mpr ⟨h1, ?_⟩
      simpa [List.elem_iff] using h2
  have hexnd : (existing.map Task.id).Nodup :=
    hnd.sublist ((List.filter_sublist db.tasks).map Task.id)
  have hexsub : ∀ i ∈ existing.map Task.id, i ∈ ids := by
    intro i hi
    rcases List.mem_map.mp hi with ⟨t, ht, rfl⟩
    exact ((hmemex t).mp ht).2
  constructor
  · rintro ⟨hlen, hproj⟩
    -- the two id lists have equal length, one is nodup and included in the
    -- other, so both are nodup with the same members
    have hcard1 : (existing.map Task.id).toFinset.card = ids.length := by
      rw [List.toFinset_card_of_nodup hexnd, List.length_map]
      exact hlen
    have hsub : (existing.map Task.id).toFinset ⊆ ids.toFinset := by
      intro i hi
      exact List.mem_toFinset.mpr (hexsub i (List.mem_toFinset.mp hi))
    have hidcard : ids.length ≤ ids.toFinset.card := by
      rw [← hcard1]
      exact Finset.card_le_card hsub
    have hidnodup : ids.Nodup := by
      by_contra hcon
      have h1 : ids.dedup.length < ids.length := by
        rcases Nat.lt_or_ge ids.dedup.length ids.length with h | h
        · exact h
        · have hle := (List.dedup_sublist ids).length_le
          have : ids.dedup = ids := (List.dedup_sublist ids).eq_of_length (le_antisymm hle h)
          exact absurd (List.dedup_eq_self.mp this) hcon
      rw [List.card_toFinset] at hidcard
      omega
    have hfeq : (existing.map Task.id).toFinset = ids.toFinset := by
      apply Finset.eq_of_subset_of_card_le hsub
      rw [hcard1, List.toFinset_card_of_nodup hidnodup]
    refine ⟨hidnodup, ?_⟩
    intro e he
    have : e.id ∈ ids.toFinset := List.mem_toFinset.mpr (by
      rw [hids]; exact List.mem_map_of_mem BoardEntry.id he)
    rw [← hfeq] at this
    rcases List.mem_map.mp (List.mem_toFinset.mp this) with ⟨t, ht, hteq⟩
    exact ⟨t, ((hmemex t).mp ht).1, hteq, hproj t ht⟩
  · rintro ⟨hidnodup, hall⟩
    have hidsub : ∀ i ∈ ids, i ∈ existing.map Task.id := by
      intro i hi
      rcases List.mem_map.mp (hids ▸ hi) with ⟨e, he, rfl⟩
      rcases hall e he with ⟨t, ht, htid, _⟩
      exact List.mem_map.mpr ⟨t, (hmemex t).mpr ⟨ht, htid ▸ hi⟩, htid⟩
    have hfeq : (existing.map Task.id).toFinset = ids.toFinset := by
      apply Finset.Subset.antisymm
      · intro i hi
        exact List.mem_toFinset.mpr (hexsub i (List.mem_toFinset.mp hi))
      · intro i hi
        exact List.mem_toFinset.mpr (hidsub i (List.mem_toFinset.mp hi))
    constructor
    · have h1 : existing.length = (existing.map Task.id).length := (List.length_map _ _).symm
      rw [h1, ← List.toFinset_card_of_nodup hexnd, hfeq, List.toFinset_card_of_nodup hidnodup]
    · intro t ht
      have h2 := ((hmemex t).mp ht).2
      rcases List.mem_map.mp (hids ▸ h2) with ⟨e, he, hteid⟩
      rcases hall e he with ⟨t2, ht2, ht2id, ht2p⟩
      have : t = t2 := List.inj_on_of_nodup_map hnd ((hmemex t).mp ht).1 ht2 (by rw [ht2id, hteid])
      rw [this]
      exact ht2p

/-- C10: a DELETE carrying a member identity whose taskId matches no task
returns `ok: true` without touching the store; the statement quantifies over
an arbitrary member id with no membership hypothesis, because the handler
answers before `assertMemberInProject` runs. -/
theorem deleteTask_unknown_id_ok (db : DB) (tid : String) (hdr : Option String) (m : String)
    (hm : parseMemberId hdr = some m)
    (hnone : ∀ t ∈ db.tasks, t.id ≠ tid) :
    deleteTask db tid hdr = (.ok (), db) := by
  unfold deleteTask
  rw [hm]
  have hfind : db.tasks.find? (fun t => decide (t.id = tid)) = none := by
    rw [List.find?_eq_none]
    intro t ht
    simp [hnone t ht]
  rw [hfind]

/-- Witness for C10: a member of no project deletes a nonexistent task id on
the sample store and gets `ok` with the store unchanged. -/
theorem deleteTask_unknown_id_ok_witness :
    deleteTask sampleDB "zzz" (some "ghost") = (.ok (), sampleDB) :=
  deleteTask_unknown_id_ok sampleDB "zzz" (some "ghost") "ghost" (by decide) (by decide)

/-- C7: deleting an existing task (as an authorized member) removes exactly
the rows with that id and leaves every other task row — in particular its
(status, order) pair — untouched; no sibling is renumbered. -/
theorem deleteTask_no_renumber (db : DB) (tid : String) (hdr : Option String)
    (m : String) (ex : Task)
    (hm : parseMemberId hdr = some m)
    (hfind : db.tasks.find? (fun t => decide (t.id = tid)) = some ex)
    (hmem : isMember db ex.projectId m = true) :
    (deleteTask db tid hdr).1 = .ok () ∧
    (deleteTask db tid hdr).2.tasks = db.tasks.filter (fun t => decide (t.id ≠ tid)) ∧
    (∀ u ∈ (deleteTask db tid hdr).2.tasks, u.id ≠ tid) ∧
    (∀ u ∈ db.tasks, u.id ≠ tid → u ∈ (deleteTask db tid hdr).2.tasks) ∧
    (deleteTask db tid hdr).2.projects = db.projects ∧
    (deleteTask db tid hdr).2.projectMembers = db.projectMembers := by
  have hred : deleteTask db tid hdr =
      (.ok (), { db with tasks := db.tasks.filter (fun t => decide (t.id ≠ tid)) }) := by
    unfold deleteTask
    rw [hm, hfind]
    simp [hmem]
  rw [hred]
  refine ⟨rfl, rfl, ?_, ?_, rfl, rfl⟩
  · intro u hu
    simpa using List.of_mem_filter hu
  · intro u hu hne
    exact List.mem_filter.mpr ⟨hu, by simpa using hne⟩

/-- Witness for C7: deleting task `a` of the sample store keeps task `b`
with its original status and order. -/
theorem deleteTask_no_renumber_witness :
    (deleteTask sampleDB "a" (some "m")).1 = .ok () ∧
      sampleB ∈ (deleteTask sampleDB "a" (some "m")).2.tasks := by
  have h := deleteTask_no_renumber sampleDB "a" (some "m") "m" sampleA
    (by decide) (by decide) (by decide)
  exact ⟨h.1, h.2.2.2.1 sampleB (by decide) (by decide)⟩

/-- C6: a PATCH setting a non-null assigneeId that is not a member of the
task's project is rejected with `ASSIGNEE_NOT_IN_PROJECT` and the store —
hence every field of the task — is unchanged. -/
theorem patchTask_assignee_not_in_project (db : DB) (tid : String) (hdr : Option String)
    (b : PatchBody) (m a : String) (ex : Task)
    (hm : parseMemberId hdr = some m)
    (hv : validPatchBody b = true)
    (hfind : db.tasks.find? (fun t => decide (t.id = tid)) = some ex)
    (hmem : isMember db ex.projectId m = true)
    (ha : b.assigneeId = some (some a))
    (hnm : isMember db ex.projectId a = false) :
    patchTask db tid hdr (some b) = (.error .ASSIGNEE_NOT_IN_PROJECT, db) := by
  unfold patchTask
  rw [hm]
  simp [hv, hfind, hmem, ha, hnm]

/-- Witness for C6: patching task `a` of the sample store with the unknown
assignee `ghost` is rejected and the store is unchanged. -/
theorem patchTask_assignee_not_in_project_witness :
    patchTask sampleDB "a" (some "m")
        (some { title := none, description := none, status := none, order := none,
                dueDate := none, assigneeId := some (some "ghost") }) =
      (.error .ASSIGNEE_NOT_IN_PROJECT, sampleDB) :=
  patchTask_assignee_not_in_project sampleDB "a" (some "m")
    { title := none, description := none, status := none, order := none,
      dueDate := none, assigneeId := some (some "ghost") }
    "m" "ghost" sampleA (by decide) (by decide) (by decide) (by decide) (by decide) (by decide)

/-- C3 (code bug): POST computes the partition maximum and inserts the new
row in two separate store queries with no transaction, so the interleaving
read₁, read₂, write₁, write₂ of two concurrent appends into an empty
(project, status) partition gives both new tasks order 0 — the orders are
{0, 0}, not {0, 1}. -/
theorem interleaved_appends_collide :
    ((partitionTasks (interleavedAppendPair emptyBoardDB "p" .DOING
        { title := "T1", description := none, status := some .DOING,
          dueDate := none, assigneeId := none }
        { title := "T2", description := none, status := some .DOING,
          dueDate := none, assigneeId := none }
        "m" "m" "x" "y" 5 6).tasks "p" .DOING).map Task.order) = [0, 0] ∧
    ¬ ((partitionTasks (interleavedAppendPair emptyBoardDB "p" .DOING
        { title := "T1", description := none, status := some .DOING,
          dueDate := none, assigneeId := none }
        { title := "T2", description := none, status := some .DOING,
          dueDate := none, assigneeId := none }
        "m" "m" "x" "y" 5 6).tasks "p" .DOING).map Task.order).Nodup := by
  constructor
  · decide
  · decide

/-- C4: Group-and-sort yields, for each status, exactly the tasks of that
(project, status) partition, sorted by order ascending with creation time as
tie-break; it is a pure function of the task set (same task set, same
output), hence deterministic and without side effects. -/
theorem groupAndSort_spec (db : DB) (pid : String) (s : Status) :
    (groupAndSort db pid s).Sorted colLe ∧
    (groupAndSort db pid s).Perm (partitionTasks db.tasks pid s) ∧
    (∀ db2 : DB, db2.tasks = db.tasks → groupAndSort db2 pid s = groupAndSort db pid s) := by
  refine ⟨groupAndSort_sorted db pid s, groupAndSort_perm db pid s, ?_⟩
  intro db2 h
  unfold groupAndSort groupByStatus boardTasks
  rw [h]

/-- Witness for C4: on the sample store the TODO column is `[a, b]`, a
permutation of the TODO partition, sorted. -/
theorem groupAndSort_spec_witness :
    groupAndSort sampleDB "p" .TODO = [sampleA, sampleB] ∧
      (groupAndSort sampleDB "p" .TODO).Perm (partitionTasks sampleDB.tasks "p" .TODO) := by
  refine ⟨by decide, (groupAndSort_spec sampleDB "p" .TODO).2.1⟩

/-- C2: a successful POST appends its task with
`order = 1 + max(order of the (project, status) partition)`, or 0 when the
partition is empty. -/
theorem postTask_append_order (db : DB) (pid : String) (hdr : Option String)
    (b : CreateTaskBody) (newId : String) (now : Nat) (m : String)
    (hm : parseMemberId hdr = some m)
    (hmem : isMember db pid m = true)
    (hv : validCreateTaskBody b = true)
    (ha : ∀ x, b.assigneeId = some x → isMember db pid x = true) :
    ∃ t, (postTask db pid hdr (some b) newId now).1 = Except.ok t ∧
      t.status = b.status.getD Status.TODO ∧
      (partitionTasks db.tasks pid (b.status.getD Status.TODO) = [] → t.order = 0) ∧
      (partitionTasks db.tasks pid (b.status.getD Status.TODO) ≠ [] →
        ∃ u ∈ partitionTasks db.tasks pid (b.status.getD Status.TODO),
          t.order = u.order + 1 ∧
            ∀ v ∈ partitionTasks db.tasks pid (b.status.getD Status.TODO),
              v.order ≤ u.order) := by
  set s := b.status.getD Status.TODO with hsdef
  refine ⟨(appendWrite db pid s b m newId now (appendReadMax db pid s)).1, ?_, rfl, ?_, ?_⟩
  · unfold postTask
    rw [hm]
    cases hba : b.assigneeId with
    | none => simp [hmem, hv, hba, hsdef]
    | some x => simp [hmem, hv, hba, ha x hba, hsdef]
  · intro hemp
    show (appendReadMax db pid s).getD (-1) + 1 = 0
    have hnone : appendReadMax db pid s = none := by
      unfold appendReadMax
      rw [hemp]
      rfl
    rw [hnone]
    decide
  · intro hne
    cases hmx : appendReadMax db pid s with
    | none =>
      exfalso
      apply hne
      unfold appendReadMax at hmx
      have hmap := maxOrderOf_eq_none.mp hmx
      exact List.map_eq_nil_iff.mp hmap
    | some mx =>
      have hmx' : maxOrderOf ((partitionTasks db.tasks pid s).map Task.order) = some mx := by
        unfold appendReadMax at hmx
        exact hmx
      rcases List.mem_map.mp (maxOrderOf_mem hmx') with ⟨u, hu, hueq⟩
      refine ⟨u, hu, ?_, ?_⟩
      · have hgd : (Option.some mx).getD (-1 : Int) = mx := rfl
        show (Option.some mx).getD (-1 : Int) + 1 = u.order + 1
        omega
      · intro v hv2
        have hvm : v.order ∈ (partitionTasks db.tasks pid s).map Task.order :=
          List.mem_map_of_mem Task.order hv2
        have := le_maxOrderOf hvm hmx'
        omega

/-- Witness for C2: appending task `C` to the sample store's TODO column,
which holds orders {0, 1}, gives the new task order 2 = 1 + max. -/
theorem postTask_append_order_witness :
    ∃ t, (postTask sampleDB "p" (some "m")
        (some { title := "C", description := none, status := some .TODO,
                dueDate := none, assigneeId := none }) "c" 9).1 = Except.ok t ∧
      t.status = .TODO ∧
      (partitionTasks sampleDB.tasks "p" .TODO = [] → t.order = 0) ∧
      (partitionTasks sampleDB.tasks "p" .TODO ≠ [] →
        ∃ u ∈ partitionTasks sampleDB.tasks "p" .TODO,
          t.order = u.order + 1 ∧
            ∀ v ∈ partitionTasks sampleDB.tasks "p" .TODO, v.order ≤ u.order) :=
  postTask_append_order sampleDB "p" (some "m")
    { title := "C", description := none, status := some .TODO,
      dueDate := none, assigneeId := none } "c" 9 "m"
    (by decide) (by decide) (by decide) (fun x hx => nomatch hx)

/-- C8: with no interleaving, a successful POST followed by Group-and-sort
places the created task last in its status column. -/
theorem append_then_groupAndSort_last (db : DB) (pid : String) (hdr : Option String)
    (b : CreateTaskBody) (newId : String) (now : Nat) (m : String)
    (hm : parseMemberId hdr = some m)
    (hmem : isMember db pid m = true)
    (hv : validCreateTaskBody b = true)
    (ha : ∀ x, b.assigneeId = some x → isMember db pid x = true) :
    ∃ t, (postTask db pid hdr (some b) newId now).1 = Except.ok t ∧
      (groupAndSort (postTask db pid hdr (some b) newId now).2 pid
          (b.status.getD Status.TODO)).getLast? = some t := by
  set s := b.status.getD Status.TODO with hsdef
  set t := (appendWrite db pid s b m newId now (appendReadMax db pid s)).1 with htdef
  have hres : postTask db pid hdr (some b) newId now =
      (Except.ok t, { db with tasks := db.tasks ++ [t] }) := by
    unfold postTask
    rw [hm]
    cases hba : b.assigneeId with
    | none => simp [hmem, hv, hba, hsdef, htdef, appendWrite]
    | some x => simp [hmem, hv, hba, ha x hba, hsdef, htdef, appendWrite]
  rw [hres]
  refine ⟨t, rfl, ?_⟩
  have hpart : partitionTasks (db.tasks ++ [t]) pid s =
      partitionTasks db.tasks pid s ++ [t] := by
    unfold partitionTasks
    rw [List.filter_append]
    have h1 : t.projectId = pid := rfl
    have h2 : t.status = s := rfl
    simp [h1, h2]
  have hsorted := groupAndSort_sorted { db with tasks := db.tasks ++ [t] } pid s
  have hperm := groupAndSort_perm { db with tasks := db.tasks ++ [t] } pid s
  have hmemcol : ∀ y, y ∈ groupAndSort { db with tasks := db.tasks ++ [t] } pid s ↔
      y ∈ partitionTasks db.tasks pid s ++ [t] := by
    intro y
    rw [hperm.mem_iff]
    show y ∈ partitionTasks (db.tasks ++ [t]) pid s ↔ _
    rw [hpart]
  have htmem : t ∈ groupAndSort { db with tasks := db.tasks ++ [t] } pid s :=
    (hmemcol t).mpr (List.mem_append_right _ (by simp))
  have hmax : ∀ y ∈ groupAndSort { db with tasks := db.tasks ++ [t] } pid s,
      y = t ∨ y.order < t.order := by
    intro y hy
    rcases List.mem_append.mp ((hmemcol y).mp hy) with hyold | hynew
    · right
      cases hmx : appendReadMax db pid s with
      | none =>
        exfalso
        unfold appendReadMax at hmx
        have := List.map_eq_nil_iff.mp (maxOrderOf_eq_none.mp hmx)
        rw [this] at hyold
        simp at hyold
      | some mx =>
        have hmx' : maxOrderOf ((partitionTasks db.tasks pid s).map Task.order) = some mx := by
          unfold appendReadMax at hmx
          exact hmx
        have hle := le_maxOrderOf (List.mem_map_of_mem Task.order hyold) hmx'
        have hto : t.order = mx + 1 := by
          show (appendReadMax db pid s).getD (-1) + 1 = mx + 1
          rw [hmx]
          rfl
        omega
    · left
      simpa using hynew
  exact getLast_of_sorted_max hsorted htmem hmax

/-- Witness for C8: appending task `C` to the sample store and regrouping
puts `C` at the end of the TODO column. -/
theorem append_then_groupAndSort_last_witness :
    ∃ t, (postTask sampleDB "p" (some "m")
        (some { title := "C", description := none, status := some .TODO,
                dueDate := none, assigneeId := none }) "c" 9).1 = Except.ok t ∧
      (groupAndSort (postTask sampleDB "p" (some "m")
          (some { title := "C", description := none, status := some .TODO,
                  dueDate := none, assigneeId := none }) "c" 9).2 "p" .TODO).getLast? =
        some t :=
  append_then_groupAndSort_last sampleDB "p" (some "m")
    { title := "C", description := none, status := some .TODO,
      dueDate := none, assigneeId := none } "c" 9 "m"
    (by decide) (by decide) (by decide) (fun x hx => nomatch hx)

/-- Full case analysis of an authorized, schema-valid PUT against a store
with unique task primary keys: the batch is rejected with
`TASKS_NOT_IN_PROJECT` (store untouched) exactly when its ids fail to be
pairwise-distinct names of tasks of the target project; otherwise the
transaction commits and every row is rewritten by the batch row function. -/
theorem putBoard_resolve (db : DB) (pid : String) (hdr : Option String)
    (es : List BoardEntry) (m : String)
    (hm : parseMemberId hdr = some m)
    (hmem : isMember db pid m = true)
    (hv : validBoardBody es = true)
    (hnd : (db.tasks.map Task.id).Nodup) :
    (((es.map BoardEntry.id).Nodup ∧
        ∀ e ∈ es, ∃ t ∈ db.tasks, t.id = e.id ∧ t.projectId = pid) →
      putBoard db pid hdr (some es) =
        (.ok (), { db with tasks := db.tasks.map (fun t => stepAll t es) })) ∧
    (¬ ((es.map BoardEntry.id).Nodup ∧
        ∀ e ∈ es, ∃ t ∈ db.tasks, t.id = e.id ∧ t.projectId = pid) →
      putBoard db pid hdr (some es) = (.error .TASKS_NOT_IN_PROJECT, db)) := by
  have hiff := @putBoard_check_iff db pid es hnd
  by_cases hc : ((es.map BoardEntry.id).Nodup ∧
      ∀ e ∈ es, ∃ t ∈ db.tasks, t.id = e.id ∧ t.projectId = pid)
  · have hcheck := hiff.mpr hc
    refine ⟨fun _ => ?_, fun hcon => absurd hc hcon⟩
    have hb1 : (decide ((db.tasks.filter
        (fun t => (es.map BoardEntry.id).contains t.id)).length ≠
          (es.map BoardEntry.id).length)) = false := by
      simp only [decide_eq_false_iff_not, Ne, not_not]
      exact hcheck.1
    have hb2 : ((db.tasks.filter (fun t => (es.map BoardEntry.id).contains t.id)).any
        (fun t => decide (t.projectId ≠ pid))) = false := by
      rw [List.any_eq_false]
      intro t ht
      simp [hcheck.2 t ht]
    unfold putBoard
    rw [hm]
    simp only [hmem, hv, eq_self_iff_true, if_true, ite_true]
    rw [hb1, hb2]
    simp [applyEntries_eq_map]
  · refine ⟨fun hcon => absurd hcon hc, fun _ => ?_⟩
    have hnotcheck : ¬ ((db.tasks.filter
        (fun t => (es.map BoardEntry.id).contains t.id)).length =
          (es.map BoardEntry.id).length ∧
        ∀ t ∈ db.tasks.filter (fun t => (es.map BoardEntry.id).contains t.id),
          t.projectId = pid) := fun h => hc (hiff.mp h)
    have hb : ((decide ((db.tasks.filter
        (fun t => (es.map BoardEntry.id).contains t.id)).length ≠
          (es.map BoardEntry.id).length)) ||
        ((db.tasks.filter (fun t => (es.map BoardEntry.id).contains t.id)).any
          (fun t => decide (t.projectId ≠ pid)))) = true := by
      by_contra hbf
      rw [Bool.not_eq_true, Bool.or_eq_false_iff] at hbf
      apply hnotcheck
      constructor
      · have h1 := hbf.1
        simpa using h1
      · intro t ht
        have h2 := List.any_eq_false.mp hbf.2 t ht
        simpa using h2
    unfold putBoard
    rw [hm]
    simp only [hmem, hv, eq_self_iff_true, if_true, ite_true]
    rw [hb]
    simp

/-- C1 (amended): an authorized, schema-valid Apply-layout batch against a
store with unique task ids fails with `TASKS_NOT_IN_PROJECT` and changes
zero task rows whenever a listed id names no task, names a task of another
project, or is listed twice; otherwise the whole batch commits atomically:
every listed task ends with its entry's (status, order) and unlisted tasks
are untouched. -/
theorem putBoard_batch_atomic (db : DB) (pid : String) (hdr : Option String)
    (es : List BoardEntry) (m : String)
    (hm : parseMemberId hdr = some m)
    (hmem : isMember db pid m = true)
    (hv : validBoardBody es = true)
    (hnd : (db.tasks.map Task.id).Nodup) :
    (¬ ((es.map BoardEntry.id).Nodup ∧
        ∀ e ∈ es, ∃ t ∈ db.tasks, t.id = e.id ∧ t.projectId = pid) →
      putBoard db pid hdr (some es) = (.error .TASKS_NOT_IN_PROJECT, db)) ∧
    (((es.map BoardEntry.id).Nodup ∧
        ∀ e ∈ es, ∃ t ∈ db.tasks, t.id = e.id ∧ t.projectId = pid) →
      (putBoard db pid hdr (some es)).1 = .ok () ∧
      (∀ e ∈ es, ∃ t ∈ (putBoard db pid hdr (some es)).2.tasks,
          t.id = e.id ∧ t.status = e.status ∧ t.order = e.order) ∧
      (∀ e ∈ es, ∀ t ∈ (putBoard db pid hdr (some es)).2.tasks,
          t.id = e.id → t.status = e.status ∧ t.order = e.order) ∧
      (∀ t ∈ db.tasks, (∀ e ∈ es, t.id ≠ e.id) →
          t ∈ (putBoard db pid hdr (some es)).2.tasks) ∧
      (putBoard db pid hdr (some es)).2.projects = db.projects ∧
      (putBoard db pid hdr (some es)).2.projectMembers = db.projectMembers) := by
  have hres := putBoard_resolve db pid hdr es m hm hmem hv hnd
  refine ⟨hres.2, fun hc => ?_⟩
  have heq := hres.1 hc
  rw [heq]
  refine ⟨rfl, ?_, ?_, ?_, rfl, rfl⟩
  · intro e he
    rcases hc.2 e he with ⟨t, ht, htid, _⟩
    have happ := stepAll_applied hc.1 he htid
    exact ⟨stepAll t es, List.mem_map_of_mem _ ht,
      by rw [stepAll_id]; exact htid, happ.1, happ.2⟩
  · intro e he t2 ht2 htid2
    rcases List.mem_map.mp ht2 with ⟨t0, ht0, rfl⟩
    rw [stepAll_id] at htid2
    exact stepAll_applied hc.1 he htid2
  · intro t ht hno
    have hmm : stepAll t es ∈ List.map (fun t => stepAll t es) db.tasks :=
      List.mem_map_of_mem (fun t => stepAll t es) ht
    rw [stepAll_untouched hno] at hmm
    exact hmm

/-- C1 counterexample: a batch listing the id of an existing task of the
target project twice is rejected with `TASKS_NOT_IN_PROJECT`, although no
listed id is unknown or foreign — so the claim's "otherwise every listed
pair is persisted" branch does not hold as stated. -/
theorem putBoard_duplicate_id_batch_rejected :
    (∀ e ∈ [BoardEntry.mk "a" .TODO 0, BoardEntry.mk "a" .TODO 1],
        ∃ t ∈ sampleDB.tasks, t.id = e.id ∧ t.projectId = "p") ∧
    putBoard sampleDB "p" (some "m")
        (some [BoardEntry.mk "a" .TODO 0, BoardEntry.mk "a" .TODO 1]) =
      (.error .TASKS_NOT_IN_PROJECT, sampleDB) := by
  exact ⟨by decide, by decide⟩

/-- Witness for C1: the spec's swap scenario — moving `b` before `a` with
the batch [{b,TODO,0},{a,TODO,1}] succeeds and persists both pairs. -/
theorem putBoard_batch_atomic_witness :
    (putBoard sampleDB "p" (some "m")
        (some [BoardEntry.mk "b" .TODO 0, BoardEntry.mk "a" .TODO 1])).1 = .ok () ∧
    (∀ e ∈ [BoardEntry.mk "b" .TODO 0, BoardEntry.mk "a" .TODO 1],
        ∃ t ∈ (putBoard sampleDB "p" (some "m")
            (some [BoardEntry.mk "b" .TODO 0, BoardEntry.mk "a" .TODO 1])).2.tasks,
          t.id = e.id ∧ t.status = e.status ∧ t.order = e.order) := by
  have h := (putBoard_batch_atomic sampleDB "p" (some "m")
      [BoardEntry.mk "b" .TODO 0, BoardEntry.mk "a" .TODO 1] "m"
      (by decide) (by decide) (by decide) (by decide)).2 (by decide)
  exact ⟨h.1, h.2.1⟩

/-- C5 counterexample: a schema-valid batch covering the whole (p, TODO)
partition but assigning order 5 to both of its tasks is accepted, and the
partition ends with the duplicated order values [5, 5]. -/
theorem putBoard_duplicate_orders_accepted :
    (putBoard sampleDB "p" (some "m")
        (some [BoardEntry.mk "a" .TODO 5, BoardEntry.mk "b" .TODO 5])).1 = .ok () ∧
    (∀ t ∈ (putBoard sampleDB "p" (some "m")
        (some [BoardEntry.mk "a" .TODO 5, BoardEntry.mk "b" .TODO 5])).2.tasks,
      t.projectId = "p" → t.status = .TODO →
        ∃ e ∈ [BoardEntry.mk "a" .TODO 5, BoardEntry.mk "b" .TODO 5], e.id = t.id) ∧
    ((partitionTasks (putBoard sampleDB "p" (some "m")
        (some [BoardEntry.mk "a" .TODO 5, BoardEntry.mk "b" .TODO 5])).2.tasks
        "p" .TODO).map Task.order = [5, 5]) ∧
    ¬ ((partitionTasks (putBoard sampleDB "p" (some "m")
        (some [BoardEntry.mk "a" .TODO 5, BoardEntry.mk "b" .TODO 5])).2.tasks
        "p" .TODO).map Task.order).Nodup := by
  exact ⟨by decide, by decide, by decide, by decide⟩

/-- C5 (amended): after a successful Apply-layout whose batch covers the
(project, status) partition and assigns pairwise-distinct orders to its
entries of that status, the partition's order values are pairwise distinct —
the code enforces no distinctness itself, so the hypothesis on the
caller-supplied orders is required. -/
theorem putBoard_covering_distinct_orders (db : DB) (pid : String) (hdr : Option String)
    (es : List BoardEntry) (m : String) (s : Status)
    (hm : parseMemberId hdr = some m)
    (hmem : isMember db pid m = true)
    (hv : validBoardBody es = true)
    (hnd : (db.tasks.map Task.id).Nodup)
    (hc : (es.map BoardEntry.id).Nodup ∧
        ∀ e ∈ es, ∃ t ∈ db.tasks, t.id = e.id ∧ t.projectId = pid)
    (hcov : ∀ t ∈ (putBoard db pid hdr (some es)).2.tasks,
        t.projectId = pid → t.status = s → ∃ e ∈ es, e.id = t.id)
    (hdist : ((es.filter (fun e => decide (e.status = s))).map BoardEntry.order).Nodup) :
    ((partitionTasks (putBoard db pid hdr (some es)).2.tasks pid s).map Task.order).Nodup := by
  have heq := (putBoard_resolve db pid hdr es m hm hmem hv hnd).1 hc
  rw [heq] at hcov ⊢
  have hids2 : (db.tasks.map (fun t => stepAll t es)).map Task.id = db.tasks.map Task.id := by
    rw [List.map_map]
    apply List.map_congr_left
    intro t _
    exact stepAll_id t es
  have hnd2 : ((db.tasks.map (fun t => stepAll t es)).map Task.id).Nodup := by
    rw [hids2]
    exact hnd
  have hpnd : ((partitionTasks (db.tasks.map (fun t => stepAll t es)) pid s).map Task.id).Nodup :=
    hnd2.sublist ((List.filter_sublist _).map Task.id)
  have hpair : (partitionTasks (db.tasks.map (fun t => stepAll t es)) pid s).Pairwise
      (fun a b => a.id ≠ b.id) :=
    List.pairwise_map.mp hpnd
  have helem : ∀ u ∈ partitionTasks (db.tasks.map (fun t => stepAll t es)) pid s,
      ∃ e ∈ es.filter (fun e => decide (e.status = s)), e.id = u.id ∧ e.order = u.order := by
    intro u hu
    have hu2 : u ∈ db.tasks.map (fun t => stepAll t es) := List.mem_of_mem_filter hu
    have hup : u.projectId = pid ∧ u.status = s := by
      simpa using List.of_mem_filter hu
    rcases hcov u hu2 hup.1 hup.2 with ⟨e, he, heid⟩
    rcases List.mem_map.mp hu2 with ⟨t0, ht0, rfl⟩
    have ht0id : t0.id = e.id := by
      rw [heid, stepAll_id]
    have happ := stepAll_applied hc.1 he ht0id
    refine ⟨e, ?_, heid, happ.2.symm⟩
    refine List.mem_filter.mpr ⟨he, ?_⟩
    have hes : e.status = s := by
      rw [← happ.1]
      exact hup.2
    simp [hes]
  refine List.pairwise_map.mpr ?_
  refine List.Pairwise.imp_of_mem ?_ hpair
  intro a b hma hmb hne heqord
  rcases helem a hma with ⟨ea, hea, heaid, heaord⟩
  rcases helem b hmb with ⟨eb, heb, hebid, hebord⟩
  have heab : ea = eb :=
    List.inj_on_of_nodup_map hdist hea heb (by rw [heaord, hebord, heqord])
  apply hne
  rw [← heaid, ← hebid, heab]

/-- Witness for C5 (amended): the covering batch [{b,TODO,0},{a,TODO,1}]
with distinct orders leaves the (p, TODO) partition with pairwise-distinct
order values. -/
theorem putBoard_covering_distinct_orders_witness :
    ((partitionTasks (putBoard sampleDB "p" (some "m")
        (some [BoardEntry.mk "b" .TODO 0, BoardEntry.mk "a" .TODO 1])).2.tasks
        "p" .TODO).map Task.order).Nodup :=
  putBoard_covering_distinct_orders sampleDB "p" (some "m")
    [BoardEntry.mk "b" .TODO 0, BoardEntry.mk "a" .TODO 1] "m" .TODO
    (by decide) (by decide) (by decide) (by decide) (by decide) (by decide) (by decide)

/-- When every candidate code collides with an existing project's unique
invite code, the bounded retry loop exhausts its candidates and creates no
project. -/
theorem tryInsertProject_none (db : DB) (name pid mid : String) (codes : List String)
    (h : ∀ code ∈ codes, ∃ p ∈ db.projects, p.inviteCode = code) :
    tryInsertProject db name pid mid codes = none := by
  induction codes with
  | nil => rfl
  | cons c rest ih =>
    rcases h c (by simp) with ⟨p, hp, hpc⟩
    have hany : db.projects.any (fun p => decide (p.inviteCode = c)) = true :=
      List.any_eq_true.mpr ⟨p, hp, by simp [hpc]⟩
    unfold tryInsertProject
    rw [if_pos hany]
    exact ih (fun code hc => h code (by simp [hc]))

/-- A project the retry loop creates carries an invite code colliding with
no existing project. -/
theorem tryInsertProject_fresh (db : DB) (name pid mid : String) (codes : List String)
    (p : ProjectRow) (db2 : DB)
    (h : tryInsertProject db name pid mid codes = some (p, db2)) :
    ∀ q ∈ db.projects, q.inviteCode ≠ p.inviteCode := by
  induction codes generalizing db2 with
  | nil => cases h
  | cons c rest ih =>
    unfold tryInsertProject at h
    by_cases hany : db.projects.any (fun p => decide (p.inviteCode = c)) = true
    · rw [if_pos hany] at h
      exact ih _ h
    · rw [if_neg hany] at h
      cases h
      intro q hq hqc
      apply hany
      exact List.any_eq_true.mpr ⟨q, hq, by simp [hqc]⟩

/-- C9: the invite alphabet has 32 symbols and omits the ambiguous I, O, 0,
1; every code generated from 8 random bytes is an 8-character string over
that alphabet; project creation retries at most the 8 candidate codes, and
when all of them collide with existing projects it reports
`INVITE_CODE_GENERATION_FAILED` instead of creating a project; a successful
creation always carries a code colliding with no pre-existing project. -/
theorem inviteCode_generation_spec :
    (inviteAlphabet.length = 32 ∧ 'I' ∉ inviteAlphabet ∧ 'O' ∉ inviteAlphabet ∧
      '0' ∉ inviteAlphabet ∧ '1' ∉ inviteAlphabet) ∧
    (∀ bytes : List Nat, bytes.length = 8 →
      (generateInviteCode bytes).length = 8 ∧
        ∀ c ∈ (generateInviteCode bytes).toList, c ∈ inviteAlphabet) ∧
    (∀ (db : DB) (b : CreateProjectBody) (mid pid : String) (stream : List (List Nat)),
      validCreateProjectBody b = true →
      (∀ code ∈ (stream.take 8).map generateInviteCode,
          ∃ p ∈ db.projects, p.inviteCode = code) →
      (createProject db (some b) mid pid stream).1 =
        .error .INVITE_CODE_GENERATION_FAILED) ∧
    (∀ (db : DB) (body : Option CreateProjectBody) (mid pid : String)
        (stream : List (List Nat)) (p : ProjectRow) (mem : MemberRow),
      (createProject db body mid pid stream).1 = .ok (p, mem) →
      ∀ q ∈ db.projects, q.inviteCode ≠ p.inviteCode) := by
  refine ⟨⟨by decide, by decide, by decide, by decide, by decide⟩, ?_, ?_, ?_⟩
  · intro bytes hlen
    constructor
    · show (bytes.map _).length = 8
      rw [List.length_map]
      exact hlen
    · intro c hc
      have hc' : c ∈ bytes.map
          (fun b => inviteAlphabet.getD (b % inviteAlphabet.length) 'A') := hc
      rcases List.mem_map.mp hc' with ⟨bnum, _, rfl⟩
      have hlt : bnum % inviteAlphabet.length < inviteAlphabet.length :=
        Nat.mod_lt _ (by decide)
      rw [List.getD_eq_getElem _ _ hlt]
      exact List.getElem_mem hlt
  · intro db b mid pid stream hvb hall
    have hnone := tryInsertProject_none
      { db with members := db.members ++ [{ id := mid, displayName := strTrim b.displayName }] }
      (strTrim b.projectName) pid mid ((stream.take 8).map generateInviteCode)
      (fun code hc => hall code hc)
    unfold createProject
    simp only [hvb, eq_self_iff_true, if_true, ite_true]
    rw [hnone]
  · intro db body mid pid stream p mem hok q hq hqc
    cases body with
    | none =>
      rw [show createProject db none mid pid stream = (.error .INVALID_BODY, db) from rfl] at hok
      cases hok
    | some b =>
      by_cases hvb : validCreateProjectBody b = true
      · unfold createProject at hok
        simp only [hvb, eq_self_iff_true, if_true, ite_true] at hok
        cases htry : tryInsertProject
            { db with members := db.members ++
                [{ id := mid, displayName := strTrim b.displayName }] }
            (strTrim b.projectName) pid mid ((stream.take 8).map generateInviteCode) with
        | none =>
          rw [htry] at hok
          cases hok
        | some pr =>
          obtain ⟨p2, db2⟩ := pr
          rw [htry] at hok
          have hok2 : (Except.ok (p2,
              ({ id := mid, displayName := strTrim b.displayName } : MemberRow)) :
                Except ApiError (ProjectRow × MemberRow)) =
              Except.ok (p, mem) := hok
          have hp : p2 = p := congrArg Prod.fst (Except.ok.inj hok2)
          subst hp
          have hfresh := tryInsertProject_fresh _ _ _ _ _ _ _ htry
          exact hfresh q hq hqc
      · have hvb' : validCreateProjectBody b = false := by
          rwa [Bool.not_eq_true] at hvb
        unfold createProject at hok
        simp [hvb'] at hok

/-- Witness for C9: the code generated from the zero byte stream is
"AAAAAAAA"; with one project already holding it every attempt collides and
creation fails; on the sample store it does not collide and the created
project's code differs from every existing code. -/
theorem inviteCode_generation_spec_witness :
    ((generateInviteCode [0, 1, 2, 3, 4, 5, 6, 7]).length = 8 ∧
      ∀ c ∈ (generateInviteCode [0, 1, 2, 3, 4, 5, 6, 7]).toList, c ∈ inviteAlphabet) ∧
    (createProject collideDB (some { projectName := "Q", displayName := "N" }) "m2" "p2"
        (List.replicate 8 (List.replicate 8 0))).1 =
      .error .INVITE_CODE_GENERATION_FAILED ∧
    (∀ q ∈ sampleDB.projects,
        q.inviteCode ≠ ({ id := "p2", name := "Q", inviteCode := "AAAAAAAA" } : ProjectRow).inviteCode) := by
  refine ⟨inviteCode_generation_spec.2.1 [0, 1, 2, 3, 4, 5, 6, 7] (by decide), ?_, ?_⟩
  · exact inviteCode_generation_spec.2.2.1 collideDB
      { projectName := "Q", displayName := "N" } "m2" "p2"
      (List.replicate 8 (List.replicate 8 0)) (by decide) (by decide)
  · exact inviteCode_generation_spec.2.2.2 sampleDB
      (some { projectName := "Q", displayName := "N" }) "m2" "p2"
      [List.replicate 8 0]
      { id := "p2", name := "Q", inviteCode := "AAAAAAAA" }
      { id := "m2", displayName := "N" } (by decide)

end STrello
